/-
Verification of the restaurant-viewer import / search / map pipeline (src/App.js).

The embedding models the JavaScript semantics the pipeline relies on:
cell values as produced by sheet_to_json (strings, finite numbers, or an
absent property, i.e. undefined), JS truthiness and the short-circuiting
or-operator, String(v), parseFloat (decimal and exponent syntax, the
Infinity literal, longest-valid-prefix parsing), String.prototype.trim,
toLowerCase (ASCII), String.prototype.includes, and Array filter / some.
JS numbers are modelled as exact rationals: every numeric cell the xlsx
reader produces is a finite double, and none of the verified claims
depends on binary rounding, double overflow, or shortest-round-trip
number formatting (the number-to-string function below prints at most
ten fractional digits, which is exact on every value appearing here).
-/
import Mathlib

set_option allowUnsafeReducibility true
attribute [local semireducible] Rat.mul Rat.add Rat.inv Rat.sub Rat.ofScientific

namespace RestaurantViewer

/-! ### JS value model -/

/-- A cell value as seen by the row-normalisation code: an absent property
(JS undefined), a string, or a finite number. -/
inductive CellVal where
  | undef : CellVal
  | str : String → CellVal
  | num : ℚ → CellVal
deriving DecidableEq, Repr

/-- JS truthiness of a cell value: undefined, the empty string and the
number 0 are falsy, everything else is truthy. -/
def truthy : CellVal → Bool
  | CellVal.undef => false
  | CellVal.str s => !(s == "")
  | CellVal.num q => !(q == 0)

/-- The JS or-operator `a || b`: the left operand if truthy, else the right. -/
def jsOr (a b : CellVal) : CellVal :=
  if truthy a then a else b

/-- A raw spreadsheet row: the header-to-cell mapping produced by
`XLSX.utils.sheet_to_json(ws, \x7b defval: \x27\x27 \x7d)`. -/
def RawRow : Type := List (String × CellVal)

/-- JS property lookup `r[k]`: the stored value, or undefined when the
header is absent. -/
def getCell (r : RawRow) (k : String) : CellVal :=
  match List.find? (fun p => p.1 == k) r with
  | some p => p.2
  | none => CellVal.undef

/-! ### JS string operations -/

/-- Whitespace as trimmed by `String.prototype.trim` (ASCII part). -/
def isWS (c : Char) : Bool :=
  c == ' ' || c == '\t' || c == '\n' || c == '\r' || c.toNat == 11 || c.toNat == 12

/-- Drop leading and trailing whitespace from a character list. -/
def wsTrimL (l : List Char) : List Char :=
  (((l.dropWhile isWS).reverse.dropWhile isWS)).reverse

/-- `s.trim()`. -/
def jsTrim (s : String) : String :=
  String.mk (wsTrimL s.toList)

/-- `s.toLowerCase()` (ASCII). -/
def jsToLower (s : String) : String :=
  String.mk (s.toList.map Char.toLower)

/-- Does the second list start with the first one? -/
def listLeads : List Char → List Char → Bool
  | [], _ => true
  | _ :: _, [] => false
  | a :: as, b :: bs => a == b && listLeads as bs

/-- Does the second list contain the first as a contiguous run?
This is `String.prototype.includes` at the character-list level. -/
def listHas (needle : List Char) : List Char → Bool
  | [] => needle.isEmpty
  | h :: t => listLeads needle (h :: t) || listHas needle t

/-- `hay.includes(needle)`. -/
def strIncludes (hay needle : String) : Bool :=
  listHas needle.toList hay.toList

/-- `m` occurs contiguously inside `l`. -/
def seqInside (m l : List Char) : Prop :=
  ∃ a b, l = a ++ m ++ b

/-! ### JS number parsing and printing -/

/-- Result of `parseFloat`: not-a-number, a signed infinity (from the
`Infinity` literal), or a finite value. -/
inductive JSNum where
  | nan : JSNum
  | inf : Bool → JSNum
  | fin : ℚ → JSNum
deriving DecidableEq, Repr

/-- Value of a list of decimal digit characters. -/
def digitsVal (cs : List Char) : ℕ :=
  cs.foldl (fun a c => a * 10 + (c.toNat - 48)) 0

/-- Value of one decimal digit character over ℚ. -/
def digitQ (c : Char) : ℚ :=
  Rat.ofInt (Int.ofNat (c.toNat - 48))

/-- Value of a list of decimal digit characters over ℚ. -/
def digitsValQ (cs : List Char) : ℚ :=
  cs.foldl (fun a c => a * 10 + digitQ c) 0

/-- Value of a list of decimal digit characters read as a fraction
(first character is the tenths digit). -/
def fracVal (cs : List Char) : ℚ :=
  cs.foldr (fun c acc => (digitQ c + acc) / 10) 0

/-- Natural power of ten over ℚ. -/
def pow10n : ℕ → ℚ
  | 0 => 1
  | n + 1 => 10 * pow10n n

/-- Integer power of ten over ℚ. -/
def pow10 : ℤ → ℚ
  | Int.ofNat n => pow10n n
  | Int.negSucc n => 1 / pow10n (n + 1)

/-- Exponent digits of a `parseFloat` input; an empty digit run leaves the
exponent part unconsumed, i.e. contributes exponent 0. -/
def parseExpDigits (neg : Bool) (cs : List Char) : ℤ :=
  let ds := cs.takeWhile Char.isDigit
  if ds.isEmpty then 0
  else if neg then -Int.ofNat (digitsVal ds) else Int.ofNat (digitsVal ds)

/-- Optional sign of a `parseFloat` exponent. -/
def parseExpSign : List Char → ℤ
  | '+' :: r => parseExpDigits false r
  | '-' :: r => parseExpDigits true r
  | r => parseExpDigits false r

/-- Optional exponent part of a `parseFloat` input. -/
def parseExp : List Char → ℤ
  | 'e' :: r => parseExpSign r
  | 'E' :: r => parseExpSign r
  | _ => 0

/-- `parseFloat` after sign extraction: the `Infinity` literal, or the
longest decimal-literal run; NaN when no digit is consumed. -/
def parseUnsigned (neg : Bool) (cs : List Char) : JSNum :=
  if listLeads ("Infinity".toList) cs then JSNum.inf neg
  else
    let intDs := cs.takeWhile Char.isDigit
    let rest1 := cs.dropWhile Char.isDigit
    let fracDs := match rest1 with
      | '.' :: r => r.takeWhile Char.isDigit
      | _ => []
    let rest2 := match rest1 with
      | '.' :: r => r.dropWhile Char.isDigit
      | _ => rest1
    if intDs.isEmpty && fracDs.isEmpty then JSNum.nan
    else
      let mant : ℚ := digitsValQ intDs + fracVal fracDs
      JSNum.fin ((if neg then -mant else mant) * pow10 (parseExp rest2))

/-- `parseFloat(s)`: skip leading whitespace, read an optional sign, then
the longest valid numeric prefix. -/
def parseFloatJS (s : String) : JSNum :=
  match s.toList.dropWhile isWS with
  | '+' :: r => parseUnsigned false r
  | '-' :: r => parseUnsigned true r
  | r => parseUnsigned false r

/-- Decimal digit characters. -/
def digChar : ℕ → Char
  | 0 => '0' | 1 => '1' | 2 => '2' | 3 => '3' | 4 => '4'
  | 5 => '5' | 6 => '6' | 7 => '7' | 8 => '8' | 9 => '9'
  | _ => '?'

/-- Little-endian decimal digits of a natural number, with explicit fuel
(`fuel ≥ n` suffices). -/
def natDigitsRev : ℕ → ℕ → List ℕ
  | 0, _ => []
  | fuel + 1, n => if n = 0 then [] else n % 10 :: natDigitsRev fuel (n / 10)

/-- `String(n)` for a natural number. -/
def natToJs (n : ℕ) : String :=
  if n = 0 then "0" else String.mk (((natDigitsRev n n).reverse).map digChar)

/-- Fractional decimal digits of a rational in `[0, 1)`, most significant
first, up to the given fuel. -/
def fracDigs : ℕ → ℚ → List ℕ
  | 0, _ => []
  | k + 1, x => ((x * 10).floor.toNat % 10) :: fracDigs k (x * 10 - Rat.ofInt (x * 10).floor)

/-- `String(q)` for a finite number, printing at most ten fractional
digits and trimming trailing zeros (exact on every value used here). -/
def ratToJs (q : ℚ) : String :=
  let sgn := if q < 0 then "-" else ""
  let a := if q < 0 then -q else q
  let ip := a.floor.toNat
  let ds := (((fracDigs 10 (a - Rat.ofInt a.floor)).reverse.dropWhile (fun d => d == 0))).reverse
  if ds.isEmpty then sgn ++ natToJs ip
  else sgn ++ natToJs ip ++ "." ++ String.mk (ds.map digChar)

/-- `String(v)` on a cell value. -/
def jsToString : CellVal → String
  | CellVal.undef => "undefined"
  | CellVal.str s => s
  | CellVal.num q => ratToJs q

/-- `s.replace(\x27,\x27, \x27.\x27)`: a string pattern replaces only the
first occurrence. -/
def replaceCommaDot : List Char → List Char
  | [] => []
  | c :: cs => if c == ',' then '.' :: cs else c :: replaceCommaDot cs

/-- src/App.js lines 70-73: stringify, swap a decimal comma for a point,
parse as a float, keep the value only when finite. -/
def safeFloat (v : CellVal) : Option ℚ :=
  match parseFloatJS (String.mk (replaceCommaDot (jsToString v).toList)) with
  | JSNum.fin q => some q
  | _ => none

/-! ### The canonical record and the normaliser -/

/-- The normalised record built for each raw row (src/App.js lines 47-60).
String-like fields keep the cell value the or-chain produced; `lat` and
`lng` hold the `safeFloat` result, `none` standing for JS null. -/
structure Record where
  id : String
  name : CellVal
  address : CellVal
  city : CellVal
  state : CellVal
  country : CellVal
  lat : Option ℚ
  lng : Option ℚ
  phone : CellVal
  website : CellVal
  cuisine : CellVal
  notes : CellVal
deriving DecidableEq, Repr

/-- One element of the `rows.map((r, idx) => ...)` body, line for line. -/
def normalizeRow (idx : ℕ) (r : RawRow) : Record :=
  { id := natToJs idx ++ "-" ++
      jsToString (jsOr (getCell r "Name") (jsOr (getCell r "name")
        (jsOr (getCell r "Title") (CellVal.str ""))))
  , name := jsOr (getCell r "Name") (jsOr (getCell r "name")
      (jsOr (getCell r "Title") (CellVal.str "Unnamed")))
  , address := jsOr (getCell r "Address") (jsOr (getCell r "address") (CellVal.str ""))
  , city := jsOr (getCell r "City") (jsOr (getCell r "city") (CellVal.str ""))
  , state := jsOr (getCell r "State") (jsOr (getCell r "state") (CellVal.str ""))
  , country := jsOr (getCell r "Country") (jsOr (getCell r "country") (CellVal.str ""))
  , lat := safeFloat (jsOr (getCell r "Latitude")
      (jsOr (getCell r "latitude") (getCell r "lat")))
  , lng := safeFloat (jsOr (getCell r "Longitude")
      (jsOr (getCell r "longitude") (getCell r "lng")))
  , phone := jsOr (getCell r "Phone") (jsOr (getCell r "phone") (CellVal.str ""))
  , website := jsOr (getCell r "Website") (jsOr (getCell r "website") (CellVal.str ""))
  , cuisine := jsOr (getCell r "Cuisine") (jsOr (getCell r "cuisine") (CellVal.str ""))
  , notes := jsOr (getCell r "Notes") (jsOr (getCell r "notes") (CellVal.str "")) }

/-- `rows.map((r, idx) => ...)` starting at position `k`. -/
def cleanedFrom (k : ℕ) : List RawRow → List Record
  | [] => []
  | r :: rs => normalizeRow k r :: cleanedFrom (k + 1) rs

/-- The full `cleaned` list built by a successful import. -/
def cleaned (rows : List RawRow) : List Record :=
  cleanedFrom 0 rows

/-! ### The search filter (src/App.js lines 93-97 and 147-151) -/

/-- One `some` callback step: `(x || \x27\x27).toLowerCase().includes(q)`.
`none` models the TypeError raised when the coalesced value is not a
string (a truthy numeric cell has no `toLowerCase`). -/
def matchCell (v : CellVal) (q : String) : Option Bool :=
  match jsOr v (CellVal.str "") with
  | CellVal.str s => some (strIncludes (jsToLower s) q)
  | _ => none

/-- `Array.prototype.some` over cell values, short-circuiting on the first
hit and propagating a thrown callback. -/
def someM (q : String) : List CellVal → Option Bool
  | [] => some false
  | v :: vs =>
    match matchCell v q with
    | none => none
    | some true => some true
    | some false => someM q vs

/-- The row predicate of the filter:
`[r.name, r.city, r.cuisine, r.state, r.country].some(...)`. -/
def rowMatch (r : Record) (q : String) : Option Bool :=
  someM q [r.name, r.city, r.cuisine, r.state, r.country]

/-- `Array.prototype.filter` with the row predicate, propagating a thrown
predicate. -/
def filterE (q : String) : List Record → Option (List Record)
  | [] => some []
  | r :: rs =>
    match rowMatch r q with
    | none => none
    | some b =>
      match filterE q rs with
      | none => none
      | some t => some (if b then r :: t else t)

/-- The `filtered` memo of TableScreen: trim and lowercase the query,
return the data unchanged on an empty result, else filter. -/
def searchFilter (data : List Record) (search : String) : Option (List Record) :=
  if jsToLower (jsTrim search) == "" then some data
  else filterE (jsToLower (jsTrim search)) data

/-! ### Geocoding and the map view (src/App.js lines 145-161) -/

/-- `Number.isFinite(v)` on a nullable number: false on null, true on
every (finite) model number. -/
def numIsFinite : Option ℚ → Bool
  | some _ => true
  | none => false

/-- The `geocoded` memo of MapScreen. -/
def geocoded (data : List Record) : List Record :=
  data.filter (fun d => numIsFinite d.lat && numIsFinite d.lng)

/-- The `filtered` memo of MapScreen: the search filter applied to the
geocoded subset. -/
def mapFiltered (data : List Record) (search : String) : Option (List Record) :=
  if jsToLower (jsTrim search) == "" then some (geocoded data)
  else filterE (jsToLower (jsTrim search)) (geocoded data)

/-- The `edgePadding` record passed to `fitToCoordinates`. -/
structure EdgePad where
  top : ℕ
  right : ℕ
  bottom : ℕ
  left : ℕ
deriving DecidableEq, Repr

/-- The camera instruction `onMapLayout` issues: nothing, an animated
center-and-zoom, or a fit-to-coordinates with edge padding. -/
inductive CameraInstr where
  | nothing : CameraInstr
  | centerZoom : Option ℚ × Option ℚ → ℕ → ℕ → CameraInstr
  | boundFit : List (Option ℚ × Option ℚ) → EdgePad → Bool → CameraInstr
deriving DecidableEq, Repr

/-- `onMapLayout`: no instruction without a map ref or without records;
center-zoom 14 (duration 600) on a single coordinate; otherwise fit all
coordinates with a 60-pixel padding on each edge. -/
def onMapLayout (hasRef : Bool) (filtered : List Record) : CameraInstr :=
  if !hasRef || filtered.length == 0 then CameraInstr.nothing
  else
    let coords := filtered.map (fun r => (r.lat, r.lng))
    if coords.length == 1 then
      CameraInstr.centerZoom (coords.headD (none, none)) 14 600
    else
      CameraInstr.boundFit coords ⟨60, 60, 60, 60⟩ true

/-! ### App state and the import boundary (src/App.js lines 26-68, 185-208) -/

/-- The two state cells `pickAndParseExcel` can write. -/
structure AppState where
  data : List Record
  error : Option String
deriving Repr

/-- Outcome of the external pick-and-decode step: the user cancelled, the
payload was not a readable spreadsheet (the catch path), or rows were
decoded. -/
inductive ImportEvent where
  | canceled : ImportEvent
  | decodeError : ImportEvent
  | rows : List RawRow → ImportEvent

/-- The static advisory message of the catch handler. -/
def importFailMsg : String :=
  "Failed to read that file. Make sure it\x27s an .xlsx or .xls with a header row."

/-- One run of the import handler: `setError(null)` first, then either an
early return, the catch path (which only sets the message), or
`setData(cleaned)`. -/
def importStep (st : AppState) : ImportEvent → AppState
  | ImportEvent.canceled => { st with error := none }
  | ImportEvent.decodeError => { st with error := some importFailMsg }
  | ImportEvent.rows rs => { data := cleaned rs, error := none }

/-! ### Spec-side definitions used to compare against the code -/

/-- Case-insensitive header equality, as the spec words it. -/
def ciEq (a b : String) : Bool :=
  jsToLower a == jsToLower b

/-- Case-insensitive header lookup. -/
def ciLookup (r : RawRow) (k : String) : CellVal :=
  match List.find? (fun p => ciEq p.1 k) r with
  | some p => p.2
  | none => CellVal.undef

/-- A non-empty cell in the sense of the spec wording: present and not the
empty string. -/
def nonEmptyCell : CellVal → Bool
  | CellVal.undef => false
  | CellVal.str s => !(s == "")
  | CellVal.num _ => true

/-- Modelled from the spec: field resolution as section 4.2 words it — a
priority-ordered alias list, case-insensitive on header, first non-empty
match wins, else the default. -/
def ciResolve (r : RawRow) : List String → CellVal → CellVal
  | [], d => d
  | k :: ks, d => if nonEmptyCell (ciLookup r k) then ciLookup r k else ciResolve r ks d

/-- Modelled from the spec: the name field under spec-worded resolution. -/
def specNameRes (r : RawRow) : CellVal :=
  ciResolve r ["Name", "name", "Title"] (CellVal.str "Unnamed")

/-- A cell with no non-empty value: the header is absent or holds the
empty string. -/
def emptyCell (v : CellVal) : Prop :=
  v = CellVal.undef ∨ v = CellVal.str ""

instance (v : CellVal) : Decidable (emptyCell v) := by
  unfold emptyCell
  infer_instance

/-- A string-valued cell. -/
def isStrCell : CellVal → Bool
  | CellVal.str _ => true
  | _ => false

/-- A record of the canonical shape the spec data model gives to Records:
every string field actually holds a string. -/
def Canonical (r : Record) : Prop :=
  isStrCell r.name = true ∧ isStrCell r.address = true ∧ isStrCell r.city = true ∧
  isStrCell r.state = true ∧ isStrCell r.country = true ∧ isStrCell r.phone = true ∧
  isStrCell r.website = true ∧ isStrCell r.cuisine = true ∧ isStrCell r.notes = true

instance (r : Record) : Decidable (Canonical r) := by
  unfold Canonical
  infer_instance

/-- The match relation of the spec wording: some searchable field holds a
string that contains the trimmed query as a case-insensitive substring. -/
def specMatch (r : Record) (s : String) : Prop :=
  ∃ v ∈ [r.name, r.city, r.cuisine, r.state, r.country], ∃ fs, v = CellVal.str fs ∧
    seqInside ((jsToLower (jsTrim s)).toList) ((jsToLower fs).toList)

/-- The pure Boolean row predicate the filter computes on canonical
records. -/
def cellB (v : CellVal) (q : String) : Bool :=
  match v with
  | CellVal.str s => strIncludes (jsToLower s) q
  | _ => false

/-- The pure Boolean record predicate the filter computes on canonical
records. -/
def matchB (r : Record) (q : String) : Bool :=
  [r.name, r.city, r.cuisine, r.state, r.country].any (fun v => cellB v q)

/-- Read a run of decimal digit characters back as a natural number. -/
def decodeChars (cs : List Char) : ℕ :=
  List.foldl (fun a c => a * 10 + (c.toNat - 48)) 0 cs

/-- The row position encoded in a synthesised id: the decimal run before
the first dash. -/
def idIdx (s : String) : ℕ :=
  decodeChars (s.toList.takeWhile (fun c => !(c == '-')))

/-- A concrete canonical geocoded record used to instantiate theorems. -/
def recA : Record :=
  { id := "0-Alma", name := CellVal.str "Alma", address := CellVal.str "1 Rue A"
  , city := CellVal.str "Paris", state := CellVal.str "", country := CellVal.str "France"
  , lat := some 1, lng := some 2, phone := CellVal.str "", website := CellVal.str ""
  , cuisine := CellVal.str "Thai", notes := CellVal.str "" }

/-- A concrete canonical record without a latitude, used to instantiate
theorems. -/
def recB : Record :=
  { id := "1-Boa", name := CellVal.str "Boa", address := CellVal.str ""
  , city := CellVal.str "Lyon", state := CellVal.str "", country := CellVal.str "France"
  , lat := none, lng := some 3, phone := CellVal.str "", website := CellVal.str ""
  , cuisine := CellVal.str "", notes := CellVal.str "" }

/-- A second concrete geocoded record used to instantiate theorems. -/
def recC : Record :=
  { id := "2-Cafe", name := CellVal.str "Cafe", address := CellVal.str ""
  , city := CellVal.str "Paris", state := CellVal.str "", country := CellVal.str "France"
  , lat := some 5, lng := some 6, phone := CellVal.str "", website := CellVal.str ""
  , cuisine := CellVal.str "", notes := CellVal.str "" }

/-! ### Lemmas on JS truthiness and the or-chain -/

theorem jsOr_pos {a : CellVal} (h : truthy a = true) (b : CellVal) : jsOr a b = a := by
  simp [jsOr, h]

theorem jsOr_neg {a : CellVal} (h : truthy a = false) (b : CellVal) : jsOr a b = b := by
  simp [jsOr, h]

theorem jsOr_ne_undef {a b : CellVal} (h : b ≠ CellVal.undef) : jsOr a b ≠ CellVal.undef := by
  unfold jsOr
  split
  · rename_i ht
    intro hc
    subst hc
    simp [truthy] at ht
  · exact h

theorem jsOr_assoc (a b c : CellVal) : jsOr a (jsOr b c) = jsOr (jsOr a b) c := by
  cases ha : truthy a
  · rw [jsOr_neg ha, jsOr_neg ha]
  · rw [jsOr_pos ha, jsOr_pos ha, jsOr_pos ha]

/-! ### Lemmas on substring search -/

theorem listLeads_iff {m l : List Char} : listLeads m l = true ↔ ∃ t, l = m ++ t := by
  induction m generalizing l with
  | nil => simp [listLeads]
  | cons c cs ih =>
    cases l with
    | nil =>
      simp [listLeads]
    | cons d ds =>
      simp only [listLeads, Bool.and_eq_true, beq_iff_eq]
      constructor
      · rintro ⟨rfl, h⟩
        obtain ⟨t, rfl⟩ := ih.mp h
        exact ⟨t, rfl⟩
      · rintro ⟨t, h⟩
        injection h with h1 h2
        subst h1
        exact ⟨rfl, ih.mpr ⟨t, h2⟩⟩

theorem listHas_iff {m l : List Char} : listHas m l = true ↔ seqInside m l := by
  induction l with
  | nil =>
    constructor
    · intro h
      cases m with
      | nil => exact ⟨[], [], rfl⟩
      | cons c cs => simp [listHas, List.isEmpty] at h
    · rintro ⟨a, b, hab⟩
      have hm : m = [] := by
        rcases List.append_eq_nil.mp (List.append_eq_nil.mp hab.symm).1 with ⟨_, h2⟩
        exact h2
      subst hm
      simp [listHas, List.isEmpty]
  | cons x xs ih =>
    simp only [listHas, Bool.or_eq_true]
    constructor
    · rintro (hl | hh)
      · obtain ⟨t, ht⟩ := listLeads_iff.mp hl
        exact ⟨[], t, by simpa using ht⟩
      · obtain ⟨a, b, hab⟩ := ih.mp hh
        exact ⟨x :: a, b, by simp [hab]⟩
    · rintro ⟨a, b, hab⟩
      cases a with
      | nil =>
        left
        exact listLeads_iff.mpr ⟨b, by simpa using hab⟩
      | cons y ys =>
        right
        refine ih.mpr ⟨ys, b, ?_⟩
        rw [List.cons_append, List.cons_append] at hab
        exact (List.cons.inj hab).2

theorem seqInside_trans {m l L : List Char} (h1 : seqInside m l) (h2 : seqInside l L) :
    seqInside m L := by
  obtain ⟨a, b, rfl⟩ := h1
  obtain ⟨c, d, rfl⟩ := h2
  exact ⟨c ++ a, b ++ d, by simp⟩

theorem seqInside_map (f : Char → Char) {m l : List Char} (h : seqInside m l) :
    seqInside (m.map f) (l.map f) := by
  obtain ⟨a, b, rfl⟩ := h
  exact ⟨a.map f, b.map f, by simp⟩

theorem seqInside_nil (l : List Char) : seqInside [] l :=
  ⟨l, [], by simp⟩

theorem seqInside_ne_nil {m l : List Char} (h : seqInside m l) (hm : m ≠ []) : l ≠ [] := by
  obtain ⟨a, b, rfl⟩ := h
  intro h0
  rcases List.append_eq_nil.mp (List.append_eq_nil.mp h0).1 with ⟨_, h2⟩
  exact hm h2

/-! ### Lemmas on whitespace trimming -/

theorem dropWhile_keeps (p : Char → Bool) (c : Char) (hc : p c = false) (a xs : List Char) :
    ∃ a1, List.dropWhile p (a ++ c :: xs) = a1 ++ c :: xs := by
  induction a with
  | nil => exact ⟨[], by simp [List.dropWhile_cons, hc]⟩
  | cons d ds ih =>
    by_cases hd : p d = true
    · obtain ⟨a1, h1⟩ := ih
      exact ⟨a1, by simp [List.dropWhile_cons, hd, h1]⟩
    · exact ⟨d :: ds, by simp [List.dropWhile_cons, hd]⟩

theorem dropWhile_head_false (p : Char → Bool) :
    ∀ (l : List Char) (c : Char) (cs : List Char), l.dropWhile p = c :: cs → p c = false := by
  intro l
  induction l with
  | nil =>
    intro c cs h
    simp [List.dropWhile] at h
  | cons x xs ih =>
    intro c cs h
    rw [List.dropWhile_cons] at h
    by_cases hx : p x = true
    · rw [if_pos hx] at h
      exact ih c cs h
    · rw [if_neg hx] at h
      injection h with h1 _
      subst h1
      simpa using hx

theorem rev_split (m : List Char) :
    m = (m.reverse.dropWhile isWS).reverse ++ (m.reverse.takeWhile isWS).reverse := by
  have h2 : m.reverse = m.reverse.takeWhile isWS ++ m.reverse.dropWhile isWS :=
    (List.takeWhile_append_dropWhile _ _).symm
  have h3 := congrArg List.reverse h2
  rw [List.reverse_reverse, List.reverse_append] at h3
  exact h3

theorem wsTrim_inside (l : List Char) : seqInside (wsTrimL l) l := by
  refine ⟨l.takeWhile isWS, ((l.dropWhile isWS).reverse.takeWhile isWS).reverse, ?_⟩
  calc l = l.takeWhile isWS ++ l.dropWhile isWS := (List.takeWhile_append_dropWhile _ _).symm
    _ = l.takeWhile isWS ++ (((l.dropWhile isWS).reverse.dropWhile isWS).reverse ++
        ((l.dropWhile isWS).reverse.takeWhile isWS).reverse) := by
          rw [← rev_split (l.dropWhile isWS)]
    _ = l.takeWhile isWS ++ wsTrimL l ++
        ((l.dropWhile isWS).reverse.takeWhile isWS).reverse := by
          rw [wsTrimL, List.append_assoc]

theorem wsTrim_head (l : List Char) (c : Char) (cs : List Char) (h : wsTrimL l = c :: cs) :
    isWS c = false := by
  have hsplit := rev_split (l.dropWhile isWS)
  rw [wsTrimL] at h
  rw [h] at hsplit
  exact dropWhile_head_false isWS l c
    (cs ++ ((l.dropWhile isWS).reverse.takeWhile isWS).reverse) (by simpa using hsplit)

theorem wsTrim_last (l : List Char) (c : Char) (cs : List Char)
    (h : (wsTrimL l).reverse = c :: cs) : isWS c = false := by
  rw [wsTrimL, List.reverse_reverse] at h
  exact dropWhile_head_false isWS _ c cs h

theorem inside_wsTrim {m l : List Char} (hin : seqInside m l)
    (c : Char) (cs : List Char) (hm : m = c :: cs) (hc : isWS c = false)
    (rc : Char) (rcs : List Char) (hr : m.reverse = rc :: rcs) (hrc : isWS rc = false) :
    seqInside m (wsTrimL l) := by
  obtain ⟨a, b, rfl⟩ := hin
  have hstep1 : a ++ m ++ b = a ++ c :: (cs ++ b) := by rw [hm]; simp
  obtain ⟨a1, h1⟩ := dropWhile_keeps isWS c hc a (cs ++ b)
  have h1' : List.dropWhile isWS (a ++ m ++ b) = a1 ++ m ++ b := by
    rw [hstep1, h1, hm]; simp
  have hstep2 : (a1 ++ m ++ b).reverse = b.reverse ++ rc :: (rcs ++ a1.reverse) := by
    rw [List.reverse_append, List.reverse_append, hr]; simp
  obtain ⟨b1, h2⟩ := dropWhile_keeps isWS rc hrc b.reverse (rcs ++ a1.reverse)
  have h2' : List.dropWhile isWS ((a1 ++ m ++ b).reverse) = b1 ++ m.reverse ++ a1.reverse := by
    rw [hstep2, h2, hr]; simp
  refine ⟨a1, b1.reverse, ?_⟩
  rw [wsTrimL, h1', h2']
  simp

theorem wsTrim_mono {l1 l2 : List Char} (h : seqInside l1 l2) :
    seqInside (wsTrimL l1) (wsTrimL l2) := by
  cases he : wsTrimL l1 with
  | nil => exact seqInside_nil _
  | cons c cs =>
    have hc : isWS c = false := wsTrim_head l1 c cs he
    have hin : seqInside (c :: cs) l2 := by
      rw [← he]
      exact seqInside_trans (wsTrim_inside l1) h
    cases hrev : (c :: cs).reverse with
    | nil =>
      exfalso
      simp at hrev
    | cons rc rcs =>
      have hrc : isWS rc = false := by
        apply wsTrim_last l1 rc rcs
        rw [he]
        exact hrev
      exact inside_wsTrim hin c cs rfl hc rc rcs hrev hrc

/-! ### Lemmas on the search filter -/

theorem toList_mk (l : List Char) : (String.mk l).toList = l := rfl

theorem toList_eq_nil_iff (s : String) : s.toList = [] ↔ s = "" := by
  cases s with
  | mk d =>
    constructor
    · intro h
      have hd : d = [] := h
      subst hd
      rfl
    · intro h
      rw [h]
      rfl

theorem toList_lower_trim (s : String) :
    (jsToLower (jsTrim s)).toList = (wsTrimL s.toList).map Char.toLower := rfl

theorem isStrCell_iff (v : CellVal) : isStrCell v = true ↔ ∃ s, v = CellVal.str s := by
  cases v <;> simp [isStrCell]

theorem matchCell_str (s : String) (q : String) :
    matchCell (CellVal.str s) q = some (strIncludes (jsToLower s) q) := by
  by_cases h : s = ""
  · subst h
    rfl
  · simp [matchCell, jsOr, truthy, h]

theorem someM_canon (q : String) :
    ∀ vs : List CellVal, (∀ v ∈ vs, isStrCell v = true) →
      someM q vs = some (vs.any (fun v => cellB v q)) := by
  intro vs
  induction vs with
  | nil => intro _; rfl
  | cons v vs ih =>
    intro h
    obtain ⟨s, rfl⟩ := (isStrCell_iff v).mp (h v (by simp))
    have hrest := ih (fun w hw => h w (List.mem_cons_of_mem _ hw))
    cases hb : strIncludes (jsToLower s) q <;>
      simp [someM, matchCell_str, hb, hrest, cellB, List.any_cons]

theorem rowMatch_canon (r : Record) (h : Canonical r) (q : String) :
    rowMatch r q = some (matchB r q) := by
  obtain ⟨h1, h2, h3, h4, h5, h6, h7, h8, h9⟩ := h
  apply someM_canon
  intro v hv
  simp only [List.mem_cons, List.not_mem_nil, or_false] at hv
  rcases hv with rfl | rfl | rfl | rfl | rfl
  · exact h1
  · exact h3
  · exact h8
  · exact h4
  · exact h5

theorem filterE_canon (q : String) :
    ∀ data : List Record, (∀ r ∈ data, Canonical r) →
      filterE q data = some (data.filter (fun r => matchB r q)) := by
  intro data
  induction data with
  | nil => intro _; rfl
  | cons r rs ih =>
    intro h
    have hr := rowMatch_canon r (h r (by simp)) q
    have hrest := ih (fun w hw => h w (List.mem_cons_of_mem _ hw))
    cases hb : matchB r q <;>
      simp [filterE, hr, hb, hrest, List.filter_cons]

theorem filterE_sublist (q : String) :
    ∀ (data rs : List Record), filterE q data = some rs → List.Sublist rs data := by
  intro data
  induction data with
  | nil =>
    intro rs h
    simp [filterE] at h
    subst h
    exact List.nil_sublist []
  | cons r rest ih =>
    intro rs h
    rw [filterE] at h
    cases hm : rowMatch r q with
    | none => rw [hm] at h; exact absurd h (by simp)
    | some b =>
      rw [hm] at h
      cases hf : filterE q rest with
      | none => rw [hf] at h; exact absurd h (by simp)
      | some t =>
        rw [hf] at h
        have ht := ih t hf
        cases b with
        | true =>
          have : rs = r :: t := by
            have := Option.some.inj h
            rw [← this]
            simp
          rw [this]
          exact List.Sublist.cons₂ r ht
        | false =>
          have : rs = t := by
            have := Option.some.inj h
            rw [← this]
            simp
          rw [this]
          exact List.Sublist.cons r ht

theorem searchFilter_empty (data : List Record) (s : String) (h : jsTrim s = "") :
    searchFilter data s = some data := by
  unfold searchFilter
  rw [h]
  rfl

theorem searchFilter_canon (data : List Record) (s : String)
    (hc : ∀ r ∈ data, Canonical r) (hne : jsToLower (jsTrim s) ≠ "") :
    searchFilter data s =
      some (data.filter (fun r => matchB r (jsToLower (jsTrim s)))) := by
  unfold searchFilter
  rw [if_neg (by simpa using hne)]
  exact filterE_canon _ data hc

theorem searchFilter_sublist (data : List Record) (q : String) (rs : List Record)
    (h : searchFilter data q = some rs) : List.Sublist rs data := by
  unfold searchFilter at h
  by_cases he : jsToLower (jsTrim q) == ""
  · rw [if_pos he] at h
    rw [← Option.some.inj h]
  · rw [if_neg he] at h
    exact filterE_sublist _ data rs h

theorem matchB_iff_specMatch (r : Record) (s : String) :
    matchB r (jsToLower (jsTrim s)) = true ↔ specMatch r s := by
  unfold matchB specMatch
  rw [List.any_eq_true]
  constructor
  · rintro ⟨v, hv, hb⟩
    cases v with
    | str fs =>
      refine ⟨CellVal.str fs, hv, fs, rfl, ?_⟩
      exact listHas_iff.mp (by simpa [cellB, strIncludes] using hb)
    | undef => simp [cellB] at hb
    | num q => simp [cellB] at hb
  · rintro ⟨v, hv, fs, rfl, hin⟩
    refine ⟨CellVal.str fs, hv, ?_⟩
    have hl := listHas_iff.mpr hin
    simpa [cellB, strIncludes] using hl

theorem matchB_mono (r : Record) (t1 t2 : String)
    (hst : seqInside t1.toList t2.toList) (h : matchB r t2 = true) : matchB r t1 = true := by
  unfold matchB at h ⊢
  rw [List.any_eq_true] at h ⊢
  obtain ⟨v, hv, hb⟩ := h
  refine ⟨v, hv, ?_⟩
  cases v with
  | str fs =>
    have h2 : seqInside t2.toList ((jsToLower fs).toList) := by
      apply listHas_iff.mp
      simpa [cellB, strIncludes] using hb
    simpa [cellB, strIncludes] using listHas_iff.mpr (seqInside_trans hst h2)
  | undef => simp [cellB] at hb
  | num q => simp [cellB] at hb

/-! ### Lemmas on the synthesised ids -/

theorem digChar_ne_dash {d : ℕ} (h : d < 10) : digChar d ≠ '-' := by
  interval_cases d <;> decide

theorem digChar_toNat {d : ℕ} (h : d < 10) : (digChar d).toNat - 48 = d := by
  interval_cases d <;> decide

theorem natDigitsRev_lt : ∀ (fuel n : ℕ), ∀ d ∈ natDigitsRev fuel n, d < 10 := by
  intro fuel
  induction fuel with
  | zero =>
    intro n d hd
    simp [natDigitsRev] at hd
  | succ f ih =>
    intro n d hd
    rw [natDigitsRev] at hd
    by_cases h0 : n = 0
    · rw [if_pos h0] at hd
      simp at hd
    · rw [if_neg h0] at hd
      rcases List.mem_cons.mp hd with rfl | hmem
      · exact Nat.mod_lt _ (by norm_num)
      · exact ih _ d hmem

theorem ofDigits_natDigitsRev : ∀ (fuel n : ℕ), n ≤ fuel →
    Nat.ofDigits 10 (natDigitsRev fuel n) = n := by
  intro fuel
  induction fuel with
  | zero =>
    intro n hn
    have h0 : n = 0 := Nat.le_zero.mp hn
    subst h0
    rfl
  | succ f ih =>
    intro n hn
    rw [natDigitsRev]
    by_cases h0 : n = 0
    · subst h0
      rw [if_pos rfl]
      rfl
    · rw [if_neg h0, Nat.ofDigits_cons]
      have hdiv : n / 10 ≤ f := by
        have h1 : n / 10 < n := Nat.div_lt_self (Nat.pos_of_ne_zero h0) (by norm_num)
        omega
      rw [ih (n / 10) hdiv]
      omega

theorem foldl_decode_digits : ∀ (R : List ℕ), (∀ d ∈ R, d < 10) → ∀ a : ℕ,
    List.foldl (fun x c => x * 10 + (c.toNat - 48)) a (R.map digChar) =
    List.foldl (fun x d => x * 10 + d) a R := by
  intro R
  induction R with
  | nil => intro _ a; rfl
  | cons d t ih =>
    intro h a
    simp only [List.map_cons, List.foldl_cons]
    rw [digChar_toNat (h d (by simp))]
    exact ih (fun x hx => h x (by simp [hx])) _

theorem foldl_rev_ofDigits : ∀ (L : List ℕ) (a : ℕ),
    List.foldl (fun x d => x * 10 + d) a L.reverse =
    a * 10 ^ L.length + Nat.ofDigits 10 L := by
  intro L
  induction L with
  | nil => intro a; simp
  | cons d t ih =>
    intro a
    rw [List.reverse_cons, List.foldl_append]
    simp only [List.foldl_cons, List.foldl_nil]
    rw [ih a, Nat.ofDigits_cons, List.length_cons, pow_succ]
    ring

theorem toList_append (s t : String) : (s ++ t).toList = s.toList ++ t.toList := by
  cases s
  cases t
  rfl

theorem decode_natToJs (k : ℕ) : decodeChars (natToJs k).toList = k := by
  by_cases h0 : k = 0
  · subst h0
    decide
  · rw [natToJs, if_neg h0, toList_mk]
    unfold decodeChars
    rw [foldl_decode_digits ((natDigitsRev k k).reverse)
      (fun d hd => natDigitsRev_lt k k d (List.mem_reverse.mp hd)) 0]
    rw [foldl_rev_ofDigits (natDigitsRev k k) 0]
    rw [ofDigits_natDigitsRev k k (le_refl k)]
    omega

theorem natToJs_no_dash (k : ℕ) : ∀ c ∈ (natToJs k).toList, c ≠ '-' := by
  by_cases h0 : k = 0
  · subst h0
    intro c hc
    have hc0 : c = '0' := by simpa [natToJs] using hc
    subst hc0
    decide
  · rw [natToJs, if_neg h0, toList_mk]
    intro c hc
    rw [List.mem_map] at hc
    obtain ⟨d, hd, rfl⟩ := hc
    exact digChar_ne_dash (natDigitsRev_lt k k d (List.mem_reverse.mp hd))

theorem takeWhile_stops (p : Char → Bool) (y : Char) (hy : p y = false) :
    ∀ (xs zs : List Char), (∀ x ∈ xs, p x = true) →
    List.takeWhile p (xs ++ y :: zs) = xs := by
  intro xs zs
  induction xs with
  | nil =>
    intro _
    simp [List.takeWhile_cons, hy]
  | cons a as ih =>
    intro h
    rw [List.cons_append, List.takeWhile_cons]
    simp only [h a (by simp), if_true]
    rw [ih (fun x hx => h x (by simp [hx]))]

theorem idIdx_mkId (k : ℕ) (nm : String) : idIdx (natToJs k ++ "-" ++ nm) = k := by
  unfold idIdx
  have hsplit : (natToJs k ++ "-" ++ nm).toList = (natToJs k).toList ++ '-' :: nm.toList := by
    rw [toList_append, toList_append, List.append_assoc]
    rfl
  rw [hsplit]
  rw [takeWhile_stops (fun c => !(c == '-')) '-' (by decide) (natToJs k).toList nm.toList
    (fun x hx => by simpa using natToJs_no_dash k x hx)]
  exact decode_natToJs k

theorem idIdx_normalizeRow (n : ℕ) (r : RawRow) : idIdx (normalizeRow n r).id = n :=
  idIdx_mkId n _

/-! ### Lemmas on the cleaned list -/

theorem cleanedFrom_length : ∀ (rows : List RawRow) (k : ℕ),
    (cleanedFrom k rows).length = rows.length := by
  intro rows
  induction rows with
  | nil => intro k; rfl
  | cons r rs ih =>
    intro k
    rw [cleanedFrom]
    simp [List.length_cons, ih]

theorem cleanedFrom_get : ∀ (rows : List RawRow) (k i : ℕ) (h1 : i < rows.length)
    (h2 : i < (cleanedFrom k rows).length),
    (cleanedFrom k rows).get ⟨i, h2⟩ = normalizeRow (k + i) (rows.get ⟨i, h1⟩) := by
  intro rows
  induction rows with
  | nil =>
    intro k i h1 _
    simp at h1
  | cons r rs ih =>
    intro k i h1 h2
    cases i with
    | zero => rfl
    | succ j =>
      have hj1 : j < rs.length := by simpa using h1
      have hj2 : j < (cleanedFrom (k + 1) rs).length := by
        rw [cleanedFrom_length]
        exact hj1
      have step : (cleanedFrom k (r :: rs)).get ⟨j + 1, h2⟩ =
          (cleanedFrom (k + 1) rs).get ⟨j, hj2⟩ := rfl
      rw [step, ih (k + 1) j hj1 hj2]
      congr 1
      omega

theorem cleaned_get (rows : List RawRow) (i : ℕ) (h1 : i < rows.length)
    (h2 : i < (cleaned rows).length) :
    (cleaned rows).get ⟨i, h2⟩ = normalizeRow i (rows.get ⟨i, h1⟩) := by
  have h := cleanedFrom_get rows 0 i h1 h2
  rw [Nat.zero_add] at h
  exact h

theorem numIsFinite_eq_isSome (v : Option ℚ) : numIsFinite v = v.isSome := by
  cases v <;> rfl

theorem emptyCell_falsy {a : CellVal} (h : emptyCell a) : truthy a = false := by
  rcases h with h | h <;> subst h <;> rfl

theorem jsOr_str_hit {a : CellVal} {s : String} (ha : a = CellVal.str s) (hs : s ≠ "")
    (b : CellVal) : jsOr a b = CellVal.str s := by
  subst ha
  exact jsOr_pos (by simp [truthy, hs]) b

theorem jsOr_chain_default (a b c d : CellVal) (h : truthy (jsOr a (jsOr b c)) = true) :
    jsOr a (jsOr b (jsOr c d)) = jsOr a (jsOr b c) := by
  cases ta : truthy a
  · rw [jsOr_neg ta] at h ⊢
    rw [jsOr_neg ta]
    cases tb : truthy b
    · rw [jsOr_neg tb] at h ⊢
      rw [jsOr_neg tb]
      rw [jsOr_pos h]
    · rw [jsOr_pos tb, jsOr_pos tb]
  · rw [jsOr_pos ta, jsOr_pos ta]

/-! ### Claim theorems -/

/-- Claim C2: `safeFloat` stringifies its argument, swaps a decimal comma
for a point, parses a float, and keeps the result only when finite, so a
coordinate is `some` finite rational or `none`, never NaN or an infinity;
concretely, the string `45,12` coerces to `45.12`, `abc` and the empty
string coerce to null, and the number `12.5` coerces to itself; the same
function is applied to both `lat` and `lng`. -/
theorem safeFloat_contract :
    safeFloat (CellVal.str "45,12") = some (4512 / 100)
    ∧ safeFloat (CellVal.str "abc") = none
    ∧ safeFloat (CellVal.str "") = none
    ∧ safeFloat (CellVal.num (25 / 2)) = some (25 / 2)
    ∧ (∀ v : CellVal, safeFloat v = none ∨ ∃ q : ℚ, safeFloat v = some q)
    ∧ (∀ v : CellVal, safeFloat v =
        match parseFloatJS (String.mk (replaceCommaDot (jsToString v).toList)) with
        | JSNum.fin q => some q
        | _ => none)
    ∧ (∀ (i : ℕ) (r : RawRow),
        (normalizeRow i r).lat = safeFloat (jsOr (getCell r "Latitude")
          (jsOr (getCell r "latitude") (getCell r "lat")))
        ∧ (normalizeRow i r).lng = safeFloat (jsOr (getCell r "Longitude")
          (jsOr (getCell r "longitude") (getCell r "lng")))) := by
  refine ⟨by decide, by decide, by decide, by decide, ?_, fun v => rfl, fun i r => ⟨rfl, rfl⟩⟩
  intro v
  cases h : safeFloat v with
  | none => exact Or.inl rfl
  | some q => exact Or.inr ⟨q, rfl⟩

/-- Claim C4: a record is in the geocoded subset exactly when both of its
coordinates are non-null (model numbers are always finite), and the map
view applies the search filter to the geocoded subset, not the other way
round. -/
theorem geocoded_contract (data : List Record) (q : String) (r : Record) :
    (r ∈ geocoded data ↔ r ∈ data ∧ r.lat.isSome = true ∧ r.lng.isSome = true)
    ∧ mapFiltered data q = searchFilter (geocoded data) q := by
  constructor
  · unfold geocoded
    rw [List.mem_filter, Bool.and_eq_true, numIsFinite_eq_isSome, numIsFinite_eq_isSome]
  · rfl

/-- Claim C5: the camera-framing decision on the filtered geocoded subset
is: no instruction for zero records, a fixed-zoom centered view for one
record, and a fit of all coordinates with a fixed symmetric nonzero
padding for two or more; recomputing on the same subset yields the same
instruction. -/
theorem camera_framing (filtered : List Record) :
    (filtered = [] → onMapLayout true filtered = CameraInstr.nothing)
    ∧ (∀ r : Record, filtered = [r] →
        onMapLayout true filtered = CameraInstr.centerZoom (r.lat, r.lng) 14 600)
    ∧ (2 ≤ filtered.length →
        onMapLayout true filtered = CameraInstr.boundFit
          (filtered.map (fun r => (r.lat, r.lng))) ⟨60, 60, 60, 60⟩ true
        ∧ ∀ r ∈ filtered, (r.lat, r.lng) ∈ filtered.map (fun r => (r.lat, r.lng)))
    ∧ onMapLayout true filtered = onMapLayout true filtered := by
  refine ⟨?_, ?_, ?_, rfl⟩
  · rintro rfl
    rfl
  · rintro r rfl
    rfl
  · intro h2
    constructor
    · have hc1 : (filtered.length == 0) = false := by
        simp only [beq_eq_false_iff_ne, ne_eq]
        omega
      have hc2 : ((filtered.map (fun r => (r.lat, r.lng))).length == 1) = false := by
        simp only [List.length_map, beq_eq_false_iff_ne, ne_eq]
        omega
      simp only [onMapLayout, Bool.not_true, Bool.false_or, hc1, hc2, if_false,
        Bool.false_eq_true]
    · intro r hr
      exact List.mem_map_of_mem _ hr

/-- Claim C5 witness: the three framing scenarios at concrete subsets. -/
theorem camera_framing_witness :
    onMapLayout true ([] : List Record) = CameraInstr.nothing
    ∧ onMapLayout true [recA] = CameraInstr.centerZoom (recA.lat, recA.lng) 14 600
    ∧ (onMapLayout true [recA, recC] = CameraInstr.boundFit
        ([recA, recC].map (fun r => (r.lat, r.lng))) ⟨60, 60, 60, 60⟩ true
       ∧ ∀ r ∈ [recA, recC], (r.lat, r.lng) ∈ [recA, recC].map (fun r => (r.lat, r.lng))) :=
  ⟨(camera_framing []).1 rfl,
   (camera_framing [recA]).2.1 recA rfl,
   (camera_framing [recA, recC]).2.2.1 (by decide)⟩

/-- Claim C6: when the picked payload cannot be decoded, the import
handler leaves the record collection untouched and only stores the fixed
non-empty advisory message. -/
theorem import_failure_contract (st : AppState) :
    (importStep st ImportEvent.decodeError).data = st.data
    ∧ (importStep st ImportEvent.decodeError).error = some importFailMsg
    ∧ importFailMsg ≠ "" :=
  ⟨rfl, rfl, by decide⟩

/-- Claim C7: normalisation is total: every raw row yields exactly one
record (the cleaned list has one record per row), every string-like field
is a defined value (never undefined/null; only lat and lng may be null),
a row with no truthy name alias gets the name `Unnamed`, and a row whose
coordinate source fails coercion still yields a record, with null
coordinates. -/
theorem normalizer_total (rows : List RawRow) (i : ℕ) (r : RawRow) :
    (cleaned rows).length = rows.length
    ∧ (normalizeRow i r).name ≠ CellVal.undef
    ∧ (normalizeRow i r).address ≠ CellVal.undef
    ∧ (normalizeRow i r).city ≠ CellVal.undef
    ∧ (normalizeRow i r).state ≠ CellVal.undef
    ∧ (normalizeRow i r).country ≠ CellVal.undef
    ∧ (normalizeRow i r).phone ≠ CellVal.undef
    ∧ (normalizeRow i r).website ≠ CellVal.undef
    ∧ (normalizeRow i r).cuisine ≠ CellVal.undef
    ∧ (normalizeRow i r).notes ≠ CellVal.undef
    ∧ (truthy (getCell r "Name") = false → truthy (getCell r "name") = false →
        truthy (getCell r "Title") = false →
        (normalizeRow i r).name = CellVal.str "Unnamed")
    ∧ (safeFloat (jsOr (getCell r "Latitude")
          (jsOr (getCell r "latitude") (getCell r "lat"))) = none →
        (normalizeRow i r).lat = none) := by
  refine ⟨cleanedFrom_length rows 0,
    jsOr_ne_undef (jsOr_ne_undef (jsOr_ne_undef (by decide))),
    jsOr_ne_undef (jsOr_ne_undef (by decide)),
    jsOr_ne_undef (jsOr_ne_undef (by decide)),
    jsOr_ne_undef (jsOr_ne_undef (by decide)),
    jsOr_ne_undef (jsOr_ne_undef (by decide)),
    jsOr_ne_undef (jsOr_ne_undef (by decide)),
    jsOr_ne_undef (jsOr_ne_undef (by decide)),
    jsOr_ne_undef (jsOr_ne_undef (by decide)),
    jsOr_ne_undef (jsOr_ne_undef (by decide)),
    ?_, fun h => h⟩
  intro h1 h2 h3
  show jsOr (getCell r "Name") (jsOr (getCell r "name")
    (jsOr (getCell r "Title") (CellVal.str "Unnamed"))) = CellVal.str "Unnamed"
  rw [jsOr_neg h1, jsOr_neg h2, jsOr_neg h3]

/-- Claim C7 witness: a row with only an unparsable latitude cell still
yields one record, named `Unnamed`, with null coordinates. -/
theorem normalizer_total_witness :
    (cleaned [[("Latitude", CellVal.str "abc")]]).length = 1
    ∧ (normalizeRow 0 [("Latitude", CellVal.str "abc")]).name = CellVal.str "Unnamed"
    ∧ (normalizeRow 0 [("Latitude", CellVal.str "abc")]).lat = none := by
  have h := normalizer_total [[("Latitude", CellVal.str "abc")]] 0
    [("Latitude", CellVal.str "abc")]
  exact ⟨h.1, h.2.2.2.2.2.2.2.2.2.2.1 (by decide) (by decide) (by decide),
    h.2.2.2.2.2.2.2.2.2.2.2 (by decide)⟩

/-- Claim C3: for every record collection and query, an empty or
whitespace-only query returns the collection unchanged; any returned list
is an ordered sub-sequence of the input; and on canonical records the
filter returns exactly the records in which one of name, city, cuisine,
state, country contains the trimmed query as a case-insensitive
substring. -/
theorem search_filter_contract (data : List Record) (s : String) :
    (jsTrim s = "" → searchFilter data s = some data)
    ∧ (∀ rs, searchFilter data s = some rs → List.Sublist rs data)
    ∧ ((∀ r ∈ data, Canonical r) → ∃ rs, searchFilter data s = some rs ∧
        ∀ r, r ∈ rs ↔ r ∈ data ∧ specMatch r s) := by
  refine ⟨fun h => searchFilter_empty data s h,
    fun rs h => searchFilter_sublist data s rs h, ?_⟩
  intro hc
  by_cases he : jsToLower (jsTrim s) = ""
  · refine ⟨data, ?_, ?_⟩
    · unfold searchFilter
      rw [if_pos (by simpa using he)]
    · intro r
      constructor
      · intro hr
        refine ⟨hr, ?_⟩
        obtain ⟨s0, hs0⟩ := (isStrCell_iff _).mp (hc r hr).1
        refine ⟨r.name, by simp, s0, hs0, ?_⟩
        have hl : (jsToLower (jsTrim s)).toList = [] := by
          rw [he]
          rfl
        rw [hl]
        exact seqInside_nil _
      · exact fun h => h.1
  · refine ⟨data.filter (fun r => matchB r (jsToLower (jsTrim s))),
      searchFilter_canon data s hc he, ?_⟩
    intro r
    rw [List.mem_filter]
    constructor
    · rintro ⟨hmem, hb⟩
      exact ⟨hmem, (matchB_iff_specMatch r s).mp hb⟩
    · rintro ⟨hmem, hb⟩
      exact ⟨hmem, (matchB_iff_specMatch r s).mpr hb⟩

/-- Claim C3 witness: on a concrete two-record collection, a
whitespace-only query is the identity, the filtered result is a sublist,
and the query `PaR` returns exactly the record whose city contains
`par`. -/
theorem search_filter_contract_witness :
    searchFilter [recA, recB] "   " = some [recA, recB]
    ∧ List.Sublist [recA] [recA, recB]
    ∧ (∃ rs, searchFilter [recA, recB] "PaR" = some rs ∧
        ∀ r, r ∈ rs ↔ r ∈ [recA, recB] ∧ specMatch r "PaR") :=
  ⟨(search_filter_contract [recA, recB] "   ").1 (by decide),
   (search_filter_contract [recA, recB] "PaR").2.1 [recA] (by decide),
   (search_filter_contract [recA, recB] "PaR").2.2 (by decide)⟩

/-- Claim C9: on canonical records, if the raw query q1 occurs inside the
raw query q2, every record returned for q2 is also returned for q1. -/
theorem search_monotone (data : List Record) (q1 q2 : String)
    (hc : ∀ r ∈ data, Canonical r) (hsub : seqInside q1.toList q2.toList)
    (rs1 rs2 : List Record) (h1 : searchFilter data q1 = some rs1)
    (h2 : searchFilter data q2 = some rs2) :
    ∀ r ∈ rs2, r ∈ rs1 := by
  intro r hr
  by_cases he1 : jsToLower (jsTrim q1) = ""
  · have hd : rs1 = data := by
      unfold searchFilter at h1
      rw [if_pos (by simpa using he1)] at h1
      exact (Option.some.inj h1).symm
    rw [hd]
    exact (searchFilter_sublist data q2 rs2 h2).subset hr
  · have hmono : seqInside (jsToLower (jsTrim q1)).toList (jsToLower (jsTrim q2)).toList := by
      rw [toList_lower_trim, toList_lower_trim]
      exact seqInside_map Char.toLower (wsTrim_mono hsub)
    have hne2 : jsToLower (jsTrim q2) ≠ "" := by
      intro he2
      apply he1
      have h2l : (jsToLower (jsTrim q2)).toList = [] := by
        rw [he2]
        rfl
      have h1l : (jsToLower (jsTrim q1)).toList = [] := by
        by_contra hne
        exact (seqInside_ne_nil hmono hne) h2l
      exact (toList_eq_nil_iff _).mp h1l
    rw [searchFilter_canon data q1 hc he1] at h1
    rw [searchFilter_canon data q2 hc hne2] at h2
    have hrs1 : rs1 = data.filter (fun x => matchB x (jsToLower (jsTrim q1))) :=
      (Option.some.inj h1).symm
    have hrs2 : rs2 = data.filter (fun x => matchB x (jsToLower (jsTrim q2))) :=
      (Option.some.inj h2).symm
    rw [hrs2] at hr
    rw [hrs1, List.mem_filter]
    rw [List.mem_filter] at hr
    exact ⟨hr.1, matchB_mono r _ _ hmono hr.2⟩

/-- Claim C9 witness: `ar` occurs inside `Par`, and the record returned
for `Par` is returned for `ar`. -/
theorem search_monotone_witness : recA ∈ ([recA] : List Record) :=
  search_monotone [recA, recB] "ar" "Par" (by decide) ⟨['P'], [], by decide⟩
    [recA] [recA] (by decide) (by decide) recA (by simp)

/-- Claim C1 counterexample: header matching is not case-insensitive. On
a row whose only header is the upper-case variant `NAME`, resolution as
the spec words it (case-insensitive) yields `Bistro`, but the code
resolves the name to `Unnamed`. -/
theorem alias_ci_counterexample :
    specNameRes [("NAME", CellVal.str "Bistro")] = CellVal.str "Bistro"
    ∧ (normalizeRow 0 [("NAME", CellVal.str "Bistro")]).name = CellVal.str "Unnamed"
    ∧ (normalizeRow 0 [("NAME", CellVal.str "Bistro")]).name ≠
        specNameRes [("NAME", CellVal.str "Bistro")] :=
  ⟨by decide, by decide, by decide⟩

/-- Claim C1 amended: every canonical field is resolved through its
priority-ordered alias list with exact-case header matching, and the
first non-empty match wins: name via Name, name, Title; address, city,
state, country, phone, website, cuisine, notes via their exact-case pair;
lat via Latitude, latitude, lat and lng via Longitude, longitude, lng
(resolved, then coerced). In particular a populated `Name` beats a
populated `name`. -/
theorem alias_priority_exact_case (i : ℕ) (r : RawRow) (s t : String) :
    (getCell r "Name" = CellVal.str s → s ≠ "" →
      (normalizeRow i r).name = CellVal.str s)
    ∧ (emptyCell (getCell r "Name") → getCell r "name" = CellVal.str t → t ≠ "" →
        (normalizeRow i r).name = CellVal.str t)
    ∧ (emptyCell (getCell r "Name") → emptyCell (getCell r "name") →
        getCell r "Title" = CellVal.str t → t ≠ "" →
        (normalizeRow i r).name = CellVal.str t)
    ∧ (getCell r "Address" = CellVal.str s → s ≠ "" →
        (normalizeRow i r).address = CellVal.str s)
    ∧ (emptyCell (getCell r "Address") → getCell r "address" = CellVal.str t → t ≠ "" →
        (normalizeRow i r).address = CellVal.str t)
    ∧ (getCell r "City" = CellVal.str s → s ≠ "" →
        (normalizeRow i r).city = CellVal.str s)
    ∧ (emptyCell (getCell r "City") → getCell r "city" = CellVal.str t → t ≠ "" →
        (normalizeRow i r).city = CellVal.str t)
    ∧ (getCell r "State" = CellVal.str s → s ≠ "" →
        (normalizeRow i r).state = CellVal.str s)
    ∧ (emptyCell (getCell r "State") → getCell r "state" = CellVal.str t → t ≠ "" →
        (normalizeRow i r).state = CellVal.str t)
    ∧ (getCell r "Country" = CellVal.str s → s ≠ "" →
        (normalizeRow i r).country = CellVal.str s)
    ∧ (emptyCell (getCell r "Country") → getCell r "country" = CellVal.str t → t ≠ "" →
        (normalizeRow i r).country = CellVal.str t)
    ∧ (getCell r "Latitude" = CellVal.str s → s ≠ "" →
        (normalizeRow i r).lat = safeFloat (CellVal.str s))
    ∧ (emptyCell (getCell r "Latitude") → getCell r "latitude" = CellVal.str s → s ≠ "" →
        (normalizeRow i r).lat = safeFloat (CellVal.str s))
    ∧ (emptyCell (getCell r "Latitude") → emptyCell (getCell r "latitude") →
        (normalizeRow i r).lat = safeFloat (getCell r "lat"))
    ∧ (getCell r "Longitude" = CellVal.str s → s ≠ "" →
        (normalizeRow i r).lng = safeFloat (CellVal.str s))
    ∧ (emptyCell (getCell r "Longitude") → getCell r "longitude" = CellVal.str s → s ≠ "" →
        (normalizeRow i r).lng = safeFloat (CellVal.str s))
    ∧ (emptyCell (getCell r "Longitude") → emptyCell (getCell r "longitude") →
        (normalizeRow i r).lng = safeFloat (getCell r "lng"))
    ∧ (getCell r "Phone" = CellVal.str s → s ≠ "" →
        (normalizeRow i r).phone = CellVal.str s)
    ∧ (emptyCell (getCell r "Phone") → getCell r "phone" = CellVal.str t → t ≠ "" →
        (normalizeRow i r).phone = CellVal.str t)
    ∧ (getCell r "Website" = CellVal.str s → s ≠ "" →
        (normalizeRow i r).website = CellVal.str s)
    ∧ (emptyCell (getCell r "Website") → getCell r "website" = CellVal.str t → t ≠ "" →
        (normalizeRow i r).website = CellVal.str t)
    ∧ (getCell r "Cuisine" = CellVal.str s → s ≠ "" →
        (normalizeRow i r).cuisine = CellVal.str s)
    ∧ (emptyCell (getCell r "Cuisine") → getCell r "cuisine" = CellVal.str t → t ≠ "" →
        (normalizeRow i r).cuisine = CellVal.str t)
    ∧ (getCell r "Notes" = CellVal.str s → s ≠ "" →
        (normalizeRow i r).notes = CellVal.str s)
    ∧ (emptyCell (getCell r "Notes") → getCell r "notes" = CellVal.str t → t ≠ "" →
        (normalizeRow i r).notes = CellVal.str t) := by
  refine ⟨?_, ?_, ?_, ?_, ?_, ?_, ?_, ?_, ?_, ?_, ?_, ?_, ?_, ?_, ?_, ?_, ?_, ?_, ?_, ?_,
    ?_, ?_, ?_, ?_, ?_⟩
  · intro h1 h2
    exact jsOr_str_hit h1 h2 _
  · intro h0 h1 h2
    show jsOr _ (jsOr _ _) = _
    rw [jsOr_neg (emptyCell_falsy h0)]
    exact jsOr_str_hit h1 h2 _
  · intro h0 h0a h1 h2
    show jsOr _ (jsOr _ (jsOr _ _)) = _
    rw [jsOr_neg (emptyCell_falsy h0), jsOr_neg (emptyCell_falsy h0a)]
    exact jsOr_str_hit h1 h2 _
  · intro h1 h2
    exact jsOr_str_hit h1 h2 _
  · intro h0 h1 h2
    show jsOr _ (jsOr _ _) = _
    rw [jsOr_neg (emptyCell_falsy h0)]
    exact jsOr_str_hit h1 h2 _
  · intro h1 h2
    exact jsOr_str_hit h1 h2 _
  · intro h0 h1 h2
    show jsOr _ (jsOr _ _) = _
    rw [jsOr_neg (emptyCell_falsy h0)]
    exact jsOr_str_hit h1 h2 _
  · intro h1 h2
    exact jsOr_str_hit h1 h2 _
  · intro h0 h1 h2
    show jsOr _ (jsOr _ _) = _
    rw [jsOr_neg (emptyCell_falsy h0)]
    exact jsOr_str_hit h1 h2 _
  · intro h1 h2
    exact jsOr_str_hit h1 h2 _
  · intro h0 h1 h2
    show jsOr _ (jsOr _ _) = _
    rw [jsOr_neg (emptyCell_falsy h0)]
    exact jsOr_str_hit h1 h2 _
  · intro h1 h2
    show safeFloat (jsOr _ (jsOr _ _)) = _
    rw [jsOr_str_hit h1 h2]
  · intro h0 h1 h2
    show safeFloat (jsOr _ (jsOr _ _)) = _
    rw [jsOr_neg (emptyCell_falsy h0), jsOr_str_hit h1 h2]
  · intro h0 h0a
    show safeFloat (jsOr _ (jsOr _ _)) = safeFloat _
    rw [jsOr_neg (emptyCell_falsy h0), jsOr_neg (emptyCell_falsy h0a)]
  · intro h1 h2
    show safeFloat (jsOr _ (jsOr _ _)) = _
    rw [jsOr_str_hit h1 h2]
  · intro h0 h1 h2
    show safeFloat (jsOr _ (jsOr _ _)) = _
    rw [jsOr_neg (emptyCell_falsy h0), jsOr_str_hit h1 h2]
  · intro h0 h0a
    show safeFloat (jsOr _ (jsOr _ _)) = safeFloat _
    rw [jsOr_neg (emptyCell_falsy h0), jsOr_neg (emptyCell_falsy h0a)]
  · intro h1 h2
    exact jsOr_str_hit h1 h2 _
  · intro h0 h1 h2
    show jsOr _ (jsOr _ _) = _
    rw [jsOr_neg (emptyCell_falsy h0)]
    exact jsOr_str_hit h1 h2 _
  · intro h1 h2
    exact jsOr_str_hit h1 h2 _
  · intro h0 h1 h2
    show jsOr _ (jsOr _ _) = _
    rw [jsOr_neg (emptyCell_falsy h0)]
    exact jsOr_str_hit h1 h2 _
  · intro h1 h2
    exact jsOr_str_hit h1 h2 _
  · intro h0 h1 h2
    show jsOr _ (jsOr _ _) = _
    rw [jsOr_neg (emptyCell_falsy h0)]
    exact jsOr_str_hit h1 h2 _
  · intro h1 h2
    exact jsOr_str_hit h1 h2 _
  · intro h0 h1 h2
    show jsOr _ (jsOr _ _) = _
    rw [jsOr_neg (emptyCell_falsy h0)]
    exact jsOr_str_hit h1 h2 _

/-- Claim C1 witness: with both `Name` and `name` populated differently,
`Name` wins; with only lower-case variants populated, they are used, both
for a string field (cuisine) and for a coordinate (latitude). -/
theorem alias_priority_witness :
    (normalizeRow 0 [("Name", CellVal.str "Alpha"), ("name", CellVal.str "beta")]).name
      = CellVal.str "Alpha"
    ∧ (normalizeRow 1 [("name", CellVal.str "beta")]).name = CellVal.str "beta"
    ∧ (normalizeRow 2 [("cuisine", CellVal.str "mex")]).cuisine = CellVal.str "mex"
    ∧ (normalizeRow 3 [("latitude", CellVal.str "1.5")]).lat
        = safeFloat (CellVal.str "1.5") := by
  obtain ⟨n1, -⟩ :=
    alias_priority_exact_case 0 [("Name", CellVal.str "Alpha"), ("name", CellVal.str "beta")]
      "Alpha" "beta"
  obtain ⟨-, n2, -⟩ :=
    alias_priority_exact_case 1 [("name", CellVal.str "beta")] "x" "beta"
  obtain ⟨-, -, -, -, -, -, -, -, -, -, -, -, -, -, -, -, -, -, -, -, -, -, u2, -⟩ :=
    alias_priority_exact_case 2 [("cuisine", CellVal.str "mex")] "x" "mex"
  obtain ⟨-, -, -, -, -, -, -, -, -, -, -, -, l2, -⟩ :=
    alias_priority_exact_case 3 [("latitude", CellVal.str "1.5")] "1.5" "x"
  exact ⟨n1 (by decide) (by decide),
    n2 (Or.inl (by decide)) (by decide) (by decide),
    u2 (Or.inl (by decide)) (by decide) (by decide),
    l2 (Or.inl (by decide)) (by decide) (by decide)⟩

/-- Claim C8 counterexample: on a row with no recognised name header the
stored name is `Unnamed` but the id falls back to the empty string, so
the id is not the position concatenated with the stored name (with or
without the dash separator). -/
theorem id_scheme_counterexample :
    (normalizeRow 0 ([] : RawRow)).name = CellVal.str "Unnamed"
    ∧ (normalizeRow 0 ([] : RawRow)).id = "0-"
    ∧ (normalizeRow 0 ([] : RawRow)).id ≠
        natToJs 0 ++ "-" ++ jsToString (normalizeRow 0 ([] : RawRow)).name
    ∧ (normalizeRow 0 ([] : RawRow)).id ≠ "0-Unnamed"
    ∧ (normalizeRow 0 ([] : RawRow)).id ≠ "0Unnamed" :=
  ⟨by decide, by decide, by decide, by decide, by decide⟩

/-- Claim C8 amended: the id is the row position, a dash, and the
stringified name chain whose final fallback is the empty string (not
`Unnamed`); whenever some name alias is truthy this equals position,
dash, stored name; and ids are unique within a loaded set even when
names are duplicated. -/
theorem id_scheme_amended (i : ℕ) (r : RawRow) (rows : List RawRow) :
    (normalizeRow i r).id = natToJs i ++ "-" ++
      jsToString (jsOr (getCell r "Name") (jsOr (getCell r "name")
        (jsOr (getCell r "Title") (CellVal.str ""))))
    ∧ (truthy (jsOr (getCell r "Name") (jsOr (getCell r "name") (getCell r "Title"))) = true →
        (normalizeRow i r).id = natToJs i ++ "-" ++ jsToString (normalizeRow i r).name)
    ∧ (∀ (j k : ℕ) (hj : j < (cleaned rows).length) (hk : k < (cleaned rows).length),
        j ≠ k → ((cleaned rows).get ⟨j, hj⟩).id ≠ ((cleaned rows).get ⟨k, hk⟩).id) := by
  refine ⟨rfl, ?_, ?_⟩
  · intro h
    show natToJs i ++ "-" ++ jsToString (jsOr (getCell r "Name") (jsOr (getCell r "name")
        (jsOr (getCell r "Title") (CellVal.str "")))) =
      natToJs i ++ "-" ++ jsToString (jsOr (getCell r "Name") (jsOr (getCell r "name")
        (jsOr (getCell r "Title") (CellVal.str "Unnamed"))))
    rw [jsOr_chain_default _ _ _ _ h, jsOr_chain_default _ _ _ _ h]
  · intro j k hj hk hne heq
    have hlj : j < rows.length := by
      rw [← cleanedFrom_length rows 0]
      exact hj
    have hlk : k < rows.length := by
      rw [← cleanedFrom_length rows 0]
      exact hk
    have ej : idIdx ((cleaned rows).get ⟨j, hj⟩).id = j := by
      rw [cleaned_get rows j hlj hj, idIdx_normalizeRow]
    have ek : idIdx ((cleaned rows).get ⟨k, hk⟩).id = k := by
      rw [cleaned_get rows k hlk hk, idIdx_normalizeRow]
    apply hne
    rw [← ej, heq, ek]

/-- Claim C8 witness: a named row has id position-dash-name, and two rows
with the same name still get distinct ids. -/
theorem id_scheme_witness :
    (normalizeRow 0 [("Name", CellVal.str "Dup")]).id =
      natToJs 0 ++ "-" ++ jsToString (normalizeRow 0 [("Name", CellVal.str "Dup")]).name
    ∧ ((cleaned [[("Name", CellVal.str "Dup")], [("Name", CellVal.str "Dup")]]).get
        ⟨0, by decide⟩).id ≠
      ((cleaned [[("Name", CellVal.str "Dup")], [("Name", CellVal.str "Dup")]]).get
        ⟨1, by decide⟩).id :=
  ⟨(id_scheme_amended 0 [("Name", CellVal.str "Dup")] []).2.1 (by decide),
   (id_scheme_amended 0 ([] : RawRow)
      [[("Name", CellVal.str "Dup")], [("Name", CellVal.str "Dup")]]).2.2 0 1
      (by decide) (by decide) (by decide)⟩

/-- Claim C10 counterexample: a row whose highest-priority latitude cell
holds the number 0 can still produce a non-null latitude, because the
or-chain falls through to a populated lower-priority alias. -/
theorem zero_coordinate_counterexample :
    getCell [("Latitude", CellVal.num 0), ("latitude", CellVal.str "3.5")] "Latitude"
      = CellVal.num 0
    ∧ (normalizeRow 0 [("Latitude", CellVal.num 0), ("latitude", CellVal.str "3.5")]).lat
      = some (7 / 2)
    ∧ (normalizeRow 0 [("Latitude", CellVal.num 0), ("latitude", CellVal.str "3.5")]).lat
      ≠ none :=
  ⟨by decide, by decide, by decide⟩

/-- Claim C10 amended: per coordinate — when the highest-priority
latitude cell holds the number 0 and the lower latitude aliases are
absent or empty, the record's lat is null (and likewise, independently,
for longitude), because the or-chain skips the falsy number 0 before
coercion, although `safeFloat` itself would map 0 to `some 0`; either
null coordinate alone already keeps the record out of the geocoded
subset. -/
theorem zero_coordinate_amended (i : ℕ) (r : RawRow) :
    (getCell r "Latitude" = CellVal.num 0 → emptyCell (getCell r "latitude") →
      emptyCell (getCell r "lat") →
      (normalizeRow i r).lat = none
      ∧ ∀ data : List Record, normalizeRow i r ∉ geocoded data)
    ∧ (getCell r "Longitude" = CellVal.num 0 → emptyCell (getCell r "longitude") →
      emptyCell (getCell r "lng") →
      (normalizeRow i r).lng = none
      ∧ ∀ data : List Record, normalizeRow i r ∉ geocoded data)
    ∧ safeFloat (CellVal.num 0) = some 0 := by
  refine ⟨?_, ?_, by decide⟩
  · intro h1 h2 h3
    have hlat : (normalizeRow i r).lat = none := by
      show safeFloat (jsOr (getCell r "Latitude")
        (jsOr (getCell r "latitude") (getCell r "lat"))) = none
      rcases h2 with h2 | h2 <;> rcases h3 with h3 | h3 <;> rw [h1, h2, h3] <;> decide
    refine ⟨hlat, ?_⟩
    intro data hmem
    unfold geocoded at hmem
    rw [List.mem_filter] at hmem
    have hb := hmem.2
    rw [hlat] at hb
    simp [numIsFinite] at hb
  · intro h1 h2 h3
    have hlng : (normalizeRow i r).lng = none := by
      show safeFloat (jsOr (getCell r "Longitude")
        (jsOr (getCell r "longitude") (getCell r "lng"))) = none
      rcases h2 with h2 | h2 <;> rcases h3 with h3 | h3 <;> rw [h1, h2, h3] <;> decide
    refine ⟨hlng, ?_⟩
    intro data hmem
    unfold geocoded at hmem
    rw [List.mem_filter] at hmem
    have hb := hmem.2
    rw [hlng] at hb
    simp [numIsFinite] at hb

/-- Claim C10 witness: an equator-only row (numeric zero latitude, real
longitude) gets a null lat and is excluded from a concrete geocoded
subset, and a prime-meridian-only row (numeric zero longitude, real
latitude) gets a null lng and is likewise excluded. -/
theorem zero_coordinate_witness :
    (normalizeRow 0 [("Latitude", CellVal.num 0), ("longitude", CellVal.str "2.5")]).lat
      = none
    ∧ normalizeRow 0 [("Latitude", CellVal.num 0), ("longitude", CellVal.str "2.5")]
      ∉ geocoded [normalizeRow 0 [("Latitude", CellVal.num 0),
        ("longitude", CellVal.str "2.5")], recA]
    ∧ (normalizeRow 0 [("Longitude", CellVal.num 0), ("Latitude", CellVal.str "1.5")]).lng
      = none
    ∧ normalizeRow 0 [("Longitude", CellVal.num 0), ("Latitude", CellVal.str "1.5")]
      ∉ geocoded [normalizeRow 0 [("Longitude", CellVal.num 0),
        ("Latitude", CellVal.str "1.5")], recA] := by
  have heq := (zero_coordinate_amended 0
    [("Latitude", CellVal.num 0), ("longitude", CellVal.str "2.5")]).1
    (by decide) (Or.inl (by decide)) (Or.inl (by decide))
  have hpm := (zero_coordinate_amended 0
    [("Longitude", CellVal.num 0), ("Latitude", CellVal.str "1.5")]).2.1
    (by decide) (Or.inl (by decide)) (Or.inl (by decide))
  exact ⟨heq.1, heq.2 _, hpm.1, hpm.2 _⟩

end RestaurantViewer
